import Mathlib

/-!
Verification development for the MCP Graph proxy repository.

The definitions below are a shallow embedding of the two non-trivial units
of the codebase: the lenient JSON repair function `sanitizeJsonString`
(src/claude-app/sanitize-request.js, first definition) and the Graph request
forwarder `graphQuery` together with the permission gate and the
`POST /api/graph` route handler (src/mcp-server/server.js, first copy).
JavaScript strings are modelled as `List Char`; `JSON.parse` is modelled by
an executable recursive-descent parser with explicit fuel; outbound HTTP is
modelled by an oracle (`World`) listing the responses the network would
deliver, and the calls actually emitted are recorded in an effect trace.
-/

namespace GraphMCP

/-- Shorthand: the character list of a string literal. -/
def tl (s : String) : List Char := s.toList

/-- The single-quote character (U+0027). -/
def squote : Char := '\x27'

/-- JSON whitespace accepted by `JSON.parse`: space, tab, LF, CR. -/
def isJsonWs (c : Char) : Bool :=
  c = ' ' || c = '\t' || c = '\n' || c = '\r'

/-- JavaScript whitespace, as used by `String.prototype.trim` and the
regular expression class `\\s`: WhiteSpace and LineTerminator code points. -/
def isJsWs (c : Char) : Bool :=
  let n := c.toNat
  n = 0x20 || n = 0x9 || n = 0xa || n = 0xd || n = 0xb || n = 0xc ||
  n = 0xa0 || n = 0x1680 || (0x2000 <= n && n <= 0x200a) ||
  n = 0x2028 || n = 0x2029 || n = 0x202f || n = 0x205f || n = 0x3000 || n = 0xfeff

/-- Characters of the regular expression class `[a-zA-Z0-9_$]` used when the
sanitizer looks backward for an unquoted property name. -/
def isIdentChar (c : Char) : Bool :=
  c.isAlpha || c.isDigit || c = '_' || c = '$'

/-- ASCII digit test (`0`-`9`). -/
def isAsciiDigit (c : Char) : Bool :=
  48 <= c.toNat && c.toNat <= 57

/-- JSON values as decoded by `JSON.parse`.  Number tokens are kept as their
character sequence. -/
inductive Json where
  | null
  | bool (b : Bool)
  | num (tok : List Char)
  | str (s : List Char)
  | arr (elems : List Json)
  | obj (members : List (List Char × Json))

/-- Value of a hexadecimal digit, if any. -/
def hexVal (c : Char) : Option Nat :=
  if isAsciiDigit c then some (c.toNat - 48)
  else if 'a' ≤ c && c ≤ 'f' then some (c.toNat - 87)
  else if 'A' ≤ c && c ≤ 'F' then some (c.toNat - 55)
  else none

/-- Decoding of the single-character escapes of a JSON string. -/
def escDecode (e : Char) : Option Char :=
  if e = '"' then some '"'
  else if e = '\\' then some '\\'
  else if e = '/' then some '/'
  else if e = 'b' then some '\x08'
  else if e = 'f' then some '\x0c'
  else if e = 'n' then some '\n'
  else if e = 'r' then some '\r'
  else if e = 't' then some '\t'
  else none

/-- Body of a JSON string after the opening quote: returns the decoded
characters and the input following the closing quote. -/
def parseStringBody : Nat → List Char → Option (List Char × List Char)
  | 0, _ => none
  | _ + 1, [] => none
  | f + 1, c :: rest =>
    if c = '"' then some ([], rest)
    else if c = '\\' then
      match rest with
      | [] => none
      | e :: rest2 =>
        if e = 'u' then
          match rest2 with
          | h1 :: h2 :: h3 :: h4 :: rest3 =>
            match hexVal h1, hexVal h2, hexVal h3, hexVal h4 with
            | some a, some b, some c2, some d =>
              (parseStringBody f rest3).map
                (fun p => (Char.ofNat (((a * 16 + b) * 16 + c2) * 16 + d) :: p.1, p.2))
            | _, _, _, _ => none
          | _ => none
        else
          match escDecode e with
          | some ec => (parseStringBody f rest2).map (fun p => (ec :: p.1, p.2))
          | none => none
    else if c.toNat < 32 then none
    else (parseStringBody f rest).map (fun p => (c :: p.1, p.2))

/-- Fraction and exponent parts of a JSON number token. -/
def numTail (s : List Char) : List Char × List Char :=
  let (fr, s3) :=
    match s with
    | '.' :: d :: t =>
      if isAsciiDigit d then
        ('.' :: (d :: t).takeWhile isAsciiDigit, (d :: t).dropWhile isAsciiDigit)
      else ([], s)
    | _ => ([], s)
  match s3 with
  | e :: t =>
    if e = 'e' || e = 'E' then
      match t with
      | p :: t2 =>
        if p = '+' || p = '-' then
          match t2 with
          | d :: _ =>
            if isAsciiDigit d then
              (fr ++ e :: p :: t2.takeWhile isAsciiDigit, t2.dropWhile isAsciiDigit)
            else (fr, s3)
          | [] => (fr, s3)
        else if isAsciiDigit p then
          (fr ++ e :: t.takeWhile isAsciiDigit, t.dropWhile isAsciiDigit)
        else (fr, s3)
      | [] => (fr, s3)
    else (fr, s3)
  | [] => (fr, s3)

/-- A JSON number token (the input is known to start with a digit or a
minus sign). -/
def parseNumber (s : List Char) : Option (Json × List Char) :=
  let (sign, s1) := match s with
    | '-' :: t => (['-'], t)
    | _ => (([] : List Char), s)
  match s1 with
  | c :: t =>
    if c = '0' then
      let (tail, s2) := numTail t
      some (Json.num (sign ++ '0' :: tail), s2)
    else if isAsciiDigit c then
      let intPart := (c :: t).takeWhile isAsciiDigit
      let (tail, s2) := numTail ((c :: t).dropWhile isAsciiDigit)
      some (Json.num (sign ++ intPart ++ tail), s2)
    else none
  | [] => none

mutual

/-- A JSON value, starting exactly at the value (no leading whitespace). -/
def parseValue : Nat → List Char → Option (Json × List Char)
  | 0, _ => none
  | _ + 1, [] => none
  | fuel + 1, c :: rest =>
    if c = '\x7b' then
      match List.dropWhile isJsonWs rest with
      | '\x7d' :: r2 => some (Json.obj [], r2)
      | r1 => (parseMembers fuel r1).map (fun p => (Json.obj p.1, p.2))
    else if c = '[' then
      match List.dropWhile isJsonWs rest with
      | ']' :: r2 => some (Json.arr [], r2)
      | r1 => (parseElements fuel r1).map (fun p => (Json.arr p.1, p.2))
    else if c = '"' then
      (parseStringBody (rest.length + 1) rest).map (fun p => (Json.str p.1, p.2))
    else if c = 't' then
      match rest with
      | 'r' :: 'u' :: 'e' :: r => some (Json.bool true, r)
      | _ => none
    else if c = 'f' then
      match rest with
      | 'a' :: 'l' :: 's' :: 'e' :: r => some (Json.bool false, r)
      | _ => none
    else if c = 'n' then
      match rest with
      | 'u' :: 'l' :: 'l' :: r => some (Json.null, r)
      | _ => none
    else if c = '-' then parseNumber (c :: rest)
    else if isAsciiDigit c then parseNumber (c :: rest)
    else none

/-- Nonempty member list of a JSON object, starting at the first key. -/
def parseMembers : Nat → List Char → Option (List (List Char × Json) × List Char)
  | 0, _ => none
  | fuel + 1, s =>
    match s with
    | '"' :: rest =>
      match parseStringBody (rest.length + 1) rest with
      | none => none
      | some (key, r1) =>
        match List.dropWhile isJsonWs r1 with
        | ':' :: r3 =>
          match parseValue fuel (List.dropWhile isJsonWs r3) with
          | none => none
          | some (v, r4) =>
            match List.dropWhile isJsonWs r4 with
            | ',' :: r6 =>
              (parseMembers fuel (List.dropWhile isJsonWs r6)).map
                (fun p => ((key, v) :: p.1, p.2))
            | '\x7d' :: r6 => some ([(key, v)], r6)
            | _ => none
        | _ => none
    | _ => none

/-- Nonempty element list of a JSON array, starting at the first element. -/
def parseElements : Nat → List Char → Option (List Json × List Char)
  | 0, _ => none
  | fuel + 1, s =>
    match parseValue fuel s with
    | none => none
    | some (v, r1) =>
      match List.dropWhile isJsonWs r1 with
      | ',' :: r3 =>
        (parseElements fuel (List.dropWhile isJsonWs r3)).map
          (fun p => (v :: p.1, p.2))
      | ']' :: r3 => some ([v], r3)
      | _ => none

end

/-- `JSON.parse` on a whole text: optional whitespace around a single value.
The fuel `2 * length + 2` bounds the recursion depth, since at most every
other recursive call can leave the input unconsumed. -/
def parseTop (s : List Char) : Option Json :=
  let t := List.dropWhile isJsonWs s
  match parseValue (2 * t.length + 2) t with
  | some (v, rest) => if (List.dropWhile isJsonWs rest).isEmpty then some v else none
  | none => none

/-- Whether `JSON.parse` succeeds on the string. -/
def jsonParses (s : List Char) : Bool := (parseTop s).isSome

/-- Leading-whitespace half of `String.prototype.trim`. -/
def jsTrimLeft (s : List Char) : List Char := s.dropWhile isJsWs

/-- Trailing-whitespace half of `String.prototype.trim`. -/
def jsTrimRight : List Char → List Char
  | [] => []
  | c :: cs =>
    let r := jsTrimRight cs
    if r.isEmpty && isJsWs c then [] else c :: r

/-- `String.prototype.trim`. -/
def jsTrim (s : List Char) : List Char := jsTrimRight (jsTrimLeft s)

/-- Whether the string starts with the given character. -/
def headIs (s : List Char) (c : Char) : Bool :=
  match s with
  | x :: _ => x = c
  | [] => false

/-- Whether the string ends with the given character. -/
def lastIs (s : List Char) (c : Char) : Bool :=
  match s.getLast? with
  | some x => x = c
  | none => false

/-- The preprocessing step of `sanitizeJsonString` (sanitize-request.js
lines 26-29): if the trimmed input both starts and ends with a single
quote, the variable `input` is reassigned to the trimmed input with the
outer quote pair removed (`input.trim().slice(1, -1)`). -/
def quoteStripped (s : List Char) : List Char :=
  let t := jsTrim s
  if headIs t squote && lastIs t squote then (t.drop 1).dropLast else s

/-- The backward scan triggered by an unquoted `:` (sanitize-request.js
lines 56-77): skip whitespace at the end of the accumulated `result`,
collect identifier characters into a property name, and if a nonempty name
was found with an unquoted character in front of it (`j >= 0` and
`result[j] !== '"'`), wrap the name in double quotes. -/
def colonFix (result : List Char) : List Char :=
  let rev := result.reverse
  let wsPart := rev.takeWhile isJsWs
  let r1 := rev.dropWhile isJsWs
  let propRev := r1.takeWhile isIdentChar
  let r2 := r1.dropWhile isIdentChar
  if propRev.isEmpty then result
  else
    match r2 with
    | [] => result
    | b :: _ =>
      if b = '"' then result
      else r2.reverse ++ '"' :: propRev.reverse ++ '"' :: wsPart.reverse

/-- The character-by-character repair loop of `sanitizeJsonString`
(sanitize-request.js lines 42-82).  `prev` is the previous input character
(`input[i - 1]`, `none` at `i = 0`) and `inDQ` the inside-double-quotes
flag; an unescaped `"` toggles the flag, an unquoted `'` becomes `"`, and
an unquoted `:` triggers the backward property-name scan. -/
def scanLoop : List Char → Option Char → Bool → List Char → List Char
  | [], _, _, result => result
  | c :: rest, prev, inDQ, result =>
    if c = '"' ∧ prev ≠ some '\\' then
      scanLoop rest (some c) (!inDQ) (result ++ ['"'])
    else if c = squote ∧ inDQ = false then
      scanLoop rest (some c) inDQ (result ++ ['"'])
    else if c = ':' ∧ inDQ = false then
      scanLoop rest (some c) inDQ (colonFix result ++ [':'])
    else
      scanLoop rest (some c) inDQ (result ++ [c])

/-- Whether `pat` occurs as a contiguous substring (`String.prototype.includes`). -/
def containsSeq (pat : List Char) : List Char → Bool
  | [] => List.isPrefixOf pat []
  | c :: t => List.isPrefixOf pat (c :: t) || containsSeq pat t

/-- Fuel-driven worker for `replaceSeq`; the fuel bounds the number of
steps, each of which consumes at least one character. -/
def replaceSeqAux : Nat → List Char → List Char → List Char → List Char
  | 0, _, _, s => s
  | _ + 1, _, _, [] => []
  | f + 1, pat, repl, c :: t =>
    if pat ≠ [] && List.isPrefixOf pat (c :: t) then
      repl ++ replaceSeqAux f pat repl ((c :: t).drop pat.length)
    else
      c :: replaceSeqAux f pat repl t

/-- Global, non-overlapping, left-to-right replacement
(`String.prototype.replace` with a `/g` literal pattern). -/
def replaceSeq (pat repl s : List Char) : List Char :=
  replaceSeqAux (s.length + 1) pat repl s

/-- The special case for the `\x7bmessages: [...]\x7d` format
(sanitize-request.js lines 85-88). -/
def messagesFix (r : List Char) : List Char :=
  if containsSeq (tl "\"messages\":") r || containsSeq (tl "\x7bmessages:") r then
    replaceSeq (tl "\"messages\":") (tl "\"messages\":")
      (replaceSeq (tl "\x7bmessages:") (tl "\x7b\"messages\":") r)
  else r

/-- `sanitizeJsonString` (sanitize-request.js lines 20-102, first
definition): strip an outer single-quote pair, return as-is if the string
already parses, otherwise run the repair scan and the messages fix; if the
repaired string parses return it, else return the (possibly reassigned)
`input`. -/
def sanitizeJsonString (s : List Char) : List Char :=
  let input := quoteStripped s
  if jsonParses input then input
  else
    let fixed := messagesFix (scanLoop input none false [])
    if jsonParses fixed then fixed else input

/-!
The Graph request forwarder (src/mcp-server/server.js, first copy).
A request descriptor mirrors the options object of `graphQuery`; absent
fields are `none`.  Scalar query-parameter values are modelled by their
`String(value)` form.
-/

/-- The options object passed to `graphQuery` / the parsed body of
`POST /api/graph`. -/
structure GraphOptions where
  endpoint : Option (List Char)
  method : Option (List Char)
  version : Option (List Char)
  headers : Option (List (List Char × List Char))
  body : Option Json
  queryParams : Option (List (List Char × List Char))
  allData : Option Bool

/-- JavaScript `x || d` for an optional string field: `undefined` and the
empty string are falsy. -/
def jsOr (v : Option (List Char)) (d : List Char) : List Char :=
  match v with
  | some s => if s.isEmpty then d else s
  | none => d

/-- `(options.method || 'GET').toUpperCase()`. -/
def methodNorm (o : GraphOptions) : List Char :=
  (jsOr o.method (tl "GET")).map Char.toUpper

/-- `options.version || 'beta'`. -/
def versionNorm (o : GraphOptions) : List Char := jsOr o.version (tl "beta")

/-- Whether `!options.endpoint` holds (absent or empty string). -/
def endpointMissing (o : GraphOptions) : Bool :=
  match o.endpoint with
  | none => true
  | some e => e.isEmpty

/-- `const validMethods = ['GET', 'POST', 'PUT', 'PATCH']`. -/
def validMethods : List (List Char) := [tl "GET", tl "POST", tl "PUT", tl "PATCH"]

/-- `const validVersions = ['beta', 'v1.0']`. -/
def validVersions : List (List Char) := [tl "beta", tl "v1.0"]

/-- A decoded Graph response body: the optional `value` item array, the
optional `@odata.nextLink` cursor, and any further fields. -/
structure PageBody where
  value : Option (List Json)
  nextLink : Option (List Char)
  extra : List (List Char × Json)

/-- What one outbound `fetch` delivers: a 2xx response with a decoded JSON
body, a 2xx response whose body fails JSON decoding, or a non-2xx response
with its status and the error payload that `response.json()` recovered. -/
inductive FetchResp where
  | ok (body : PageBody)
  | badJson
  | fail (status : Nat) (payload : Option Json)

/-- The failure taxonomy of `graphQuery`. -/
inductive GraphError where
  | validation (msg : List Char)
  | tokenFailure
  | upstream (status : Nat) (payload : Option Json)
  | decodeFailure
  | spreadTypeError
  | network

/-- An observable outbound call. -/
inductive Effect where
  | acquireToken
  | fetch (url : List Char)
deriving DecidableEq

/-- Result of `graphQuery`: either the raw decoded body, or the combined
`\x7b value: allItems, '@odata.count': allItems.length \x7d` object built by
pagination (which carries no `@odata.nextLink`). -/
inductive GraphResult where
  | raw (body : PageBody)
  | paged (items : List Json) (count : Nat)

/-- The environment of one call: what the token endpoint returns (`none`
models a failed client-credential exchange) and the responses the network
delivers to successive `fetch` calls, in order. -/
structure World where
  token : Option (List Char)
  responses : List FetchResp

/-- `makeRequest` (server.js lines 147-157): one `fetch`; a non-2xx
response throws a Graph API error carrying the status and the parsed error
payload.  Returns the outcome, the remaining responses and the effect
trace of the call. -/
def makeRequest (rs : List FetchResp) (url : List Char) :
    Except GraphError PageBody × List FetchResp × List Effect :=
  match rs with
  | [] => (Except.error GraphError.network, [], [Effect.fetch url])
  | FetchResp.ok b :: t => (Except.ok b, t, [Effect.fetch url])
  | FetchResp.badJson :: t => (Except.error GraphError.decodeFailure, t, [Effect.fetch url])
  | FetchResp.fail st p :: t =>
    (Except.error (GraphError.upstream st p), t, [Effect.fetch url])

/-- The `while (nextLink)` pagination loop (server.js lines 167-176),
entered with a truthy `nextLink`: fetch the next page, append
`nextPage.value` (a missing `value` makes the spread throw), and continue
while the new `nextLink` is truthy.  The fuel only bounds the iteration
count; `responses.length + 1` always suffices because every iteration
consumes a response or stops. -/
def paginate : Nat → List FetchResp → List Json → List Char →
    Except GraphError (List Json) × List FetchResp × List Effect
  | 0, rs, _, _ => (Except.error GraphError.network, rs, [])
  | f + 1, rs, acc, link =>
    let mr := makeRequest rs link
    match mr.1 with
    | Except.error e => (Except.error e, mr.2.1, mr.2.2)
    | Except.ok page =>
      match page.value with
      | none => (Except.error GraphError.spreadTypeError, mr.2.1, mr.2.2)
      | some items =>
        match page.nextLink with
        | none => (Except.ok (acc ++ items), mr.2.1, mr.2.2)
        | some l =>
          if l.isEmpty then (Except.ok (acc ++ items), mr.2.1, mr.2.2)
          else
            let pr := paginate f mr.2.1 (acc ++ items) l
            (pr.1, pr.2.1, mr.2.2 ++ pr.2.2)

/-- `'/' + endpoint` normalization (server.js line 111). -/
def normSlash (e : List Char) : List Char :=
  if headIs e '/' then e else '/' :: e

/-- `https://graph.microsoft.com/$\x7bversion\x7d`. -/
def graphBase (version : List Char) : List Char :=
  tl "https://graph.microsoft.com/" ++ version

/-- Unreserved characters of `encodeURIComponent`. -/
def isUnreservedURI (c : Char) : Bool :=
  c.isAlpha || c.isDigit || c = '-' || c = '_' || c = '.' || c = '!' ||
  c = '~' || c = '*' || c = squote || c = '(' || c = ')'

/-- Upper-case hexadecimal digit. -/
def hexDigitUpper (n : Nat) : Char :=
  if n < 10 then Char.ofNat (48 + n) else Char.ofNat (55 + n)

/-- UTF-8 bytes of a character. -/
def utf8Bytes (c : Char) : List Nat :=
  let n := c.toNat
  if n < 0x80 then [n]
  else if n < 0x800 then [0xc0 + n / 64, 0x80 + n % 64]
  else if n < 0x10000 then [0xe0 + n / 4096, 0x80 + n / 64 % 64, 0x80 + n % 64]
  else [0xf0 + n / 262144, 0x80 + n / 4096 % 64, 0x80 + n / 64 % 64, 0x80 + n % 64]

/-- `%XX` form of one byte. -/
def percentByte (b : Nat) : List Char :=
  ['%', hexDigitUpper (b / 16), hexDigitUpper (b % 16)]

/-- `encodeURIComponent` on a string. -/
def encodeURIComponent (s : List Char) : List Char :=
  (s.map (fun c => if isUnreservedURI c then [c] else (utf8Bytes c).foldr
    (fun b acc => percentByte b ++ acc) [])).flatten

/-- JavaScript property assignment on an object modelled as an ordered
association list: an existing key is overwritten in place, a new key is
appended. -/
def setKey : List (List Char × List Char) → List Char → List Char →
    List (List Char × List Char)
  | [], k, v => [(k, v)]
  | (k0, v0) :: t, k, v =>
    if k0 = k then (k0, v) :: t else (k0, v0) :: setKey t k v

/-- The query string (server.js lines 117-125): percent-encoded
`key=value` pairs joined by `&`. -/
def queryStringOf (qp : List (List Char × List Char)) : List Char :=
  List.intercalate ['&']
    (qp.map (fun kv => encodeURIComponent kv.1 ++ '=' :: encodeURIComponent kv.2))

/-- The URL built by `graphQuery` (server.js lines 110-127): base, version,
slash-normalized endpoint, and the query string of the `queryParams` object
after `consistencyLevel=eventual` was added (never empty, hence always a
`?`). -/
def urlOf (o : GraphOptions) : List Char :=
  let queryString :=
    queryStringOf (setKey (o.queryParams.getD []) (tl "consistencyLevel") (tl "eventual"))
  graphBase (versionNorm o) ++ normSlash (o.endpoint.getD []) ++
    (if queryString.isEmpty then [] else '?' :: queryString)

/-- The caller-visible descriptor after `queryParams['consistencyLevel'] =
'eventual'` (server.js line 114) has executed: when the caller supplied a
`queryParams` object that object is shared and gains the key, otherwise
the assignment lands on a fresh object the caller never sees. -/
def afterCall (o : GraphOptions) : GraphOptions :=
  match o.queryParams with
  | some qp =>
    { o with queryParams := some (setKey qp (tl "consistencyLevel") (tl "eventual")) }
  | none => o

/-- `graphService.graphQuery` (server.js lines 78-190): validate the
descriptor, acquire a token, mutate `queryParams` with
`consistencyLevel=eventual`, build the URL, issue the initial request and
optionally follow pagination.  Returns the outcome, the trace of outbound
effects, and the descriptor as the caller sees it after the call (the
`queryParams` object is shared with the caller, so its mutation is
visible there). -/
def graphQuery (w : World) (o : GraphOptions) :
    Except GraphError GraphResult × List Effect × GraphOptions :=
  if endpointMissing o then
    (Except.error (GraphError.validation (tl "Graph API endpoint is required")), [], o)
  else if methodNorm o ∉ validMethods then
    (Except.error (GraphError.validation (tl "Invalid HTTP method: " ++ methodNorm o)), [], o)
  else if versionNorm o ∉ validVersions then
    (Except.error (GraphError.validation (tl "Invalid API version: " ++ versionNorm o)), [], o)
  else
    match w.token with
    | none => (Except.error GraphError.tokenFailure, [Effect.acquireToken], o)
    | some _tok =>
      let o' := afterCall o
      let mr := makeRequest w.responses (urlOf o)
      match mr.1 with
      | Except.error e => (Except.error e, Effect.acquireToken :: mr.2.2, o')
      | Except.ok result =>
        match o.allData.getD false, result.value, result.nextLink with
        | true, some items, some link =>
          if link.isEmpty then
            (Except.ok (GraphResult.raw result), Effect.acquireToken :: mr.2.2, o')
          else
            let pr := paginate (mr.2.1.length + 1) mr.2.1 items link
            match pr.1 with
            | Except.ok allItems =>
              (Except.ok (GraphResult.paged allItems allItems.length),
                Effect.acquireToken :: mr.2.2 ++ pr.2.2, o')
            | Except.error e =>
              (Except.error e, Effect.acquireToken :: mr.2.2 ++ pr.2.2, o')
        | _, _, _ => (Except.ok (GraphResult.raw result), Effect.acquireToken :: mr.2.2, o')

/-!
The MCP context and the `POST /api/graph` route handler
(src/mcp-server/server.js, first copy, lines 196-309).
-/

/-- `MCPContext.fetchUserPermissions` (server.js lines 218-226): the fixed
per-request permission set. -/
def fetchUserPermissions : List (List Char) :=
  [tl "User.Read.All", tl "Group.Read.All", tl "Sites.Read.All"]

/-- `MCPContext.hasPermission` (server.js lines 228-230). -/
def hasPermission (perms : List (List Char)) (p : List Char) : Bool :=
  decide (p ∈ perms)

/-- `MCPContext.getPermissionForEndpoint` (server.js lines 232-243).  The
method is the raw request value (possibly absent), compared verbatim. -/
def getPermissionForEndpoint (endpoint : List Char) (method : Option (List Char)) :
    List Char :=
  if List.isPrefixOf (tl "/users") endpoint ∧ method = some (tl "GET") then
    tl "User.Read.All"
  else if List.isPrefixOf (tl "/users") endpoint ∧
      (method = some (tl "POST") ∨ method = some (tl "PUT") ∨ method = some (tl "PATCH")) then
    tl "User.ReadWrite.All"
  else if List.isPrefixOf (tl "/groups") endpoint ∧ method = some (tl "GET") then
    tl "Group.Read.All"
  else if List.isPrefixOf (tl "/groups") endpoint ∧
      (method = some (tl "POST") ∨ method = some (tl "PUT") ∨ method = some (tl "PATCH")) then
    tl "Group.ReadWrite.All"
  else tl "Directory.ReadWrite.All"

/-- HTTP response of the `POST /api/graph` handler. -/
inductive HandlerResp where
  | badRequest (msg : List Char)
  | forbidden (perm : List Char)
  | success (r : GraphResult)
  | serverError (e : GraphError)

/-- HTTP status of a handler response. -/
def statusOf : HandlerResp → Nat
  | HandlerResp.badRequest _ => 400
  | HandlerResp.forbidden _ => 403
  | HandlerResp.success _ => 200
  | HandlerResp.serverError _ => 500

/-- The `POST /api/graph` handler (server.js lines 269-309): reject a
missing body or endpoint with 400, deny with 403 when the per-request
permission set lacks the permission the endpoint requires, otherwise call
`graphQuery` with the destructured fields (`headers` is not forwarded).
The boolean records whether `graphQuery` was invoked. -/
def handleGraphPost (w : World) (body : Option GraphOptions) : HandlerResp × Bool :=
  match body with
  | none => (HandlerResp.badRequest (tl "Missing required fields"), false)
  | some b =>
    if endpointMissing b then
      (HandlerResp.badRequest (tl "Missing required fields"), false)
    else
      let requiredPermission := getPermissionForEndpoint (b.endpoint.getD []) b.method
      if hasPermission fetchUserPermissions requiredPermission then
        let q := graphQuery w
          { endpoint := b.endpoint, method := b.method, version := b.version,
            headers := none, body := b.body, queryParams := b.queryParams,
            allData := b.allData }
        match q.1 with
        | Except.ok r => (HandlerResp.success r, true)
        | Except.error e => (HandlerResp.serverError e, true)
      else (HandlerResp.forbidden requiredPermission, false)

/-!
Supporting lemmas.
-/

/-- `parseValue` fails on any character that cannot start a JSON value. -/
lemma parseValue_nonstarter (fuel : Nat) (c : Char) (rest : List Char)
    (h1 : c ≠ '\x7b') (h2 : c ≠ '[') (h3 : c ≠ '"') (h4 : c ≠ 't')
    (h5 : c ≠ 'f') (h6 : c ≠ 'n') (h7 : c ≠ '-') (h8 : isAsciiDigit c = false) :
    parseValue fuel (c :: rest) = none := by
  cases fuel with
  | zero => rfl
  | succ f => simp [parseValue, h1, h2, h3, h4, h5, h6, h7, h8]

/-- No JavaScript whitespace character can start a JSON value. -/
lemma parseValue_none_of_jsWs (c : Char) (h : isJsWs c = true)
    (fuel : Nat) (rest : List Char) : parseValue fuel (c :: rest) = none := by
  apply parseValue_nonstarter
  · intro he; rw [he] at h; revert h; decide
  · intro he; rw [he] at h; revert h; decide
  · intro he; rw [he] at h; revert h; decide
  · intro he; rw [he] at h; revert h; decide
  · intro he; rw [he] at h; revert h; decide
  · intro he; rw [he] at h; revert h; decide
  · intro he; rw [he] at h; revert h; decide
  · simp only [isJsWs, Bool.or_eq_true, Bool.and_eq_true, decide_eq_true_iff] at h
    simp only [isAsciiDigit, Bool.and_eq_false_iff, decide_eq_false_iff_not]
    omega

/-- JSON whitespace is JavaScript whitespace. -/
lemma isJsWs_of_isJsonWs (c : Char) (h : isJsonWs c = true) : isJsWs c = true := by
  simp only [isJsonWs, Bool.or_eq_true, decide_eq_true_iff] at h
  rcases h with ((rfl | rfl) | rfl) | rfl <;> decide

/-- `JSON.parse` ignores leading JSON whitespace. -/
lemma parseTop_cons_ws (c : Char) (cs : List Char) (h : isJsonWs c = true) :
    parseTop (c :: cs) = parseTop cs := by
  unfold parseTop
  rw [List.dropWhile_cons]
  simp [h]

/-- `JSON.parse` fails when the head is not whitespace and no fuel makes a
value of the text. -/
lemma parseTop_none_head (c : Char) (cs : List Char)
    (hws : isJsonWs c = false) (hpv : ∀ fuel, parseValue fuel (c :: cs) = none) :
    parseTop (c :: cs) = none := by
  unfold parseTop
  rw [List.dropWhile_cons]
  simp [hws, hpv]

/-- A string accepted by `JSON.parse` cannot start (after trimming) with a
single quote: no JSON value begins with `'`, nor with any of the extra
whitespace characters `trim` removes but `JSON.parse` does not. -/
lemma jsonParses_trim_headIs (s : List Char) (h : jsonParses s = true) :
    headIs (jsTrim s) squote = false := by
  induction s with
  | nil => rfl
  | cons c cs ih =>
    by_cases hws : isJsonWs c = true
    · have hjs : isJsWs c = true := isJsWs_of_isJsonWs c hws
      have e1 : jsTrim (c :: cs) = jsTrim cs := by
        unfold jsTrim jsTrimLeft
        rw [List.dropWhile_cons]
        simp [hjs]
      have e2 : jsonParses (c :: cs) = jsonParses cs := by
        unfold jsonParses
        rw [parseTop_cons_ws c cs hws]
      rw [e1]
      exact ih (e2 ▸ h)
    · have hwsf : isJsonWs c = false := by
        cases hx : isJsonWs c
        · rfl
        · exact absurd hx hws
      by_cases hjw : isJsWs c = true
      · exfalso
        have hnone : parseTop (c :: cs) = none :=
          parseTop_none_head c cs hwsf (fun fuel => parseValue_none_of_jsWs c hjw fuel cs)
        unfold jsonParses at h
        rw [hnone] at h
        exact Bool.noConfusion h
      · have hjwf : isJsWs c = false := by
          cases hx : isJsWs c
          · rfl
          · exact absurd hx hjw
        have etr : jsTrimRight (c :: cs) = c :: jsTrimRight cs := by
          conv_lhs => rw [jsTrimRight]
          simp [hjwf]
        have e1 : jsTrim (c :: cs) = c :: jsTrimRight cs := by
          unfold jsTrim jsTrimLeft
          rw [List.dropWhile_cons]
          simp only [hjwf, Bool.false_eq_true, if_false]
          exact etr
        rw [e1]
        by_cases hcq : c = squote
        · exfalso
          subst hcq
          have hnone : parseTop (squote :: cs) = none := by
            apply parseTop_none_head
            · decide
            · intro fuel
              apply parseValue_nonstarter <;> decide
          unfold jsonParses at h
          rw [hnone] at h
          exact Bool.noConfusion h
        · simp [headIs, hcq]

/-!
Claim theorems.
-/

set_option maxRecDepth 1000000

/-- C5: on the single-quoted input
`\x7b'messages': [\x7b'role': 'user', 'content': 'hi'\x7d]\x7d` the sanitizer
produces a string that parses as JSON, with the same parsed value as
`\x7b"messages":[\x7b"role":"user","content":"hi"\x7d]\x7d`. -/
theorem sanitizeJsonString_repairs_single_quoted_messages :
    jsonParses (sanitizeJsonString
      (tl "\x7b\x27messages\x27: [\x7b\x27role\x27: \x27user\x27, \x27content\x27: \x27hi\x27\x7d]\x7d")) = true ∧
    parseTop (sanitizeJsonString
      (tl "\x7b\x27messages\x27: [\x7b\x27role\x27: \x27user\x27, \x27content\x27: \x27hi\x27\x7d]\x7d")) =
    parseTop (tl "\x7b\"messages\":[\x7b\"role\":\"user\",\"content\":\"hi\"\x7d]\x7d") := by
  constructor
  · rfl
  · rfl

/-- C6: repair is the identity on every string that strict `JSON.parse`
already accepts. -/
theorem sanitizeJsonString_id_on_valid_json (s : List Char)
    (h : jsonParses s = true) : sanitizeJsonString s = s := by
  have hq : headIs (jsTrim s) squote = false := jsonParses_trim_headIs s h
  have hqs : quoteStripped s = s := by
    unfold quoteStripped
    simp [hq]
  unfold sanitizeJsonString
  rw [hqs]
  simp [h]

/-- Witness for C6 at the concrete valid input `\x7b"a":1\x7d`. -/
theorem sanitizeJsonString_id_on_valid_json_witness :
    jsonParses (tl "\x7b\"a\":1\x7d") = true ∧
    sanitizeJsonString (tl "\x7b\"a\":1\x7d") = tl "\x7b\"a\":1\x7d" :=
  ⟨by decide, sanitizeJsonString_id_on_valid_json (tl "\x7b\"a\":1\x7d") (by decide)⟩

/-- C1 counterexample: on the irreparable input `'\x7b'` (whose trimmed form
starts and ends with a single quote) the sanitizer returns `\x7b` — the
stripped, still unparseable string — and not the original input. -/
theorem sanitizeJsonString_quote_strip_cex :
    sanitizeJsonString (tl "\x27\x7b\x27") = tl "\x7b" ∧
    jsonParses (sanitizeJsonString (tl "\x27\x7b\x27")) = false ∧
    sanitizeJsonString (tl "\x27\x7b\x27") ≠ tl "\x27\x7b\x27" := by
  refine ⟨by decide, by decide, by decide⟩

/-- C1 amended: when repair gives up (neither the preprocessed input nor
the repaired scan output parses), the sanitizer returns the preprocessed
input — the trimmed string with the outer single-quote pair removed — and
in particular returns the original input unchanged whenever the trimmed
input does not both start and end with a single quote. -/
theorem sanitizeJsonString_giveup_returns_preprocessed (s : List Char)
    (h1 : jsonParses (quoteStripped s) = false)
    (h2 : jsonParses (messagesFix (scanLoop (quoteStripped s) none false [])) = false) :
    sanitizeJsonString s = quoteStripped s ∧
    ((headIs (jsTrim s) squote && lastIs (jsTrim s) squote) = false →
      sanitizeJsonString s = s) := by
  have hmain : sanitizeJsonString s = quoteStripped s := by
    unfold sanitizeJsonString
    simp [h1, h2]
  refine ⟨hmain, fun hc => ?_⟩
  have hqs : quoteStripped s = s := by
    unfold quoteStripped
    simp [hc]
  rw [hmain, hqs]

/-- Witness for the amended C1 at the unbalanced input `\x7b`. -/
theorem sanitizeJsonString_giveup_witness :
    sanitizeJsonString (tl "\x7b") = quoteStripped (tl "\x7b") ∧
    sanitizeJsonString (tl "\x7b") = tl "\x7b" := by
  have h := sanitizeJsonString_giveup_returns_preprocessed (tl "\x7b")
    (by decide) (by decide)
  exact ⟨h.1, h.2 (by decide)⟩

/-- A `/groups...` endpoint does not have the `/users` prefix. -/
lemma not_users_of_groups (ep : List Char)
    (h : List.isPrefixOf (tl "/groups") ep = true) :
    List.isPrefixOf (tl "/users") ep = false := by
  match ep with
  | [] => simp [tl, List.isPrefixOf] at h
  | [c] => simp [tl, List.isPrefixOf] at h
  | c1 :: c2 :: rest =>
    simp [tl, List.isPrefixOf] at h ⊢
    obtain ⟨h1, h2, h3⟩ := h
    subst h1; subst h2
    intro _ hu
    exact absurd hu (by decide)

/-- C7: the permission rules of `getPermissionForEndpoint`: `/users` + GET
requires `User.Read.All`, `/groups` + POST/PUT/PATCH requires
`Group.ReadWrite.All`, and any endpoint matching neither prefix requires
the catch-all `Directory.ReadWrite.All` whatever the method. -/
theorem getPermissionForEndpoint_rules (ep : List Char) (m : Option (List Char)) :
    (List.isPrefixOf (tl "/users") ep = true →
      getPermissionForEndpoint ep (some (tl "GET")) = tl "User.Read.All") ∧
    (List.isPrefixOf (tl "/groups") ep = true →
      (m = some (tl "POST") ∨ m = some (tl "PUT") ∨ m = some (tl "PATCH")) →
      getPermissionForEndpoint ep m = tl "Group.ReadWrite.All") ∧
    (List.isPrefixOf (tl "/users") ep = false →
      List.isPrefixOf (tl "/groups") ep = false →
      getPermissionForEndpoint ep m = tl "Directory.ReadWrite.All") := by
  refine ⟨?_, ?_, ?_⟩
  · intro hu
    unfold getPermissionForEndpoint
    rw [if_pos ⟨hu, rfl⟩]
  · intro hg hm
    have hnu := not_users_of_groups ep hg
    have n1 : (some (tl "POST") : Option (List Char)) ≠ some (tl "GET") := by decide
    have n2 : (some (tl "PUT") : Option (List Char)) ≠ some (tl "GET") := by decide
    have n3 : (some (tl "PATCH") : Option (List Char)) ≠ some (tl "GET") := by decide
    rcases hm with rfl | rfl | rfl <;>
      simp [getPermissionForEndpoint, hnu, hg, n1, n2, n3]
  · intro h1 h2
    simp [getPermissionForEndpoint, h1, h2]

/-- Witness for C7 at `/users` + GET, `/groups/g1` + POST and `/me`. -/
theorem getPermissionForEndpoint_rules_witness :
    getPermissionForEndpoint (tl "/users") (some (tl "GET")) = tl "User.Read.All" ∧
    getPermissionForEndpoint (tl "/groups/g1") (some (tl "POST")) = tl "Group.ReadWrite.All" ∧
    getPermissionForEndpoint (tl "/me") (some (tl "GET")) = tl "Directory.ReadWrite.All" :=
  ⟨(getPermissionForEndpoint_rules (tl "/users") (some (tl "GET"))).1 (by decide),
   (getPermissionForEndpoint_rules (tl "/groups/g1") (some (tl "POST"))).2.1
     (by decide) (Or.inl rfl),
   (getPermissionForEndpoint_rules (tl "/me") (some (tl "GET"))).2.2
     (by decide) (by decide)⟩

/-- The fixed permission set never contains the permission required by a
write request or by an endpoint outside `/users` and `/groups`. -/
lemma denied_permission (ep : List Char) (m : Option (List Char))
    (h : (m = some (tl "POST") ∨ m = some (tl "PUT") ∨ m = some (tl "PATCH")) ∨
      (List.isPrefixOf (tl "/users") ep = false ∧
       List.isPrefixOf (tl "/groups") ep = false)) :
    hasPermission fetchUserPermissions (getPermissionForEndpoint ep m) = false := by
  rcases h with (rfl | rfl | rfl) | ⟨h1, h2⟩
  · unfold getPermissionForEndpoint
    split_ifs with c1 c2 c3 c4
    · exact absurd c1.2 (by decide)
    · decide
    · exact absurd c3.2 (by decide)
    · decide
    · decide
  · unfold getPermissionForEndpoint
    split_ifs with c1 c2 c3 c4
    · exact absurd c1.2 (by decide)
    · decide
    · exact absurd c3.2 (by decide)
    · decide
    · decide
  · unfold getPermissionForEndpoint
    split_ifs with c1 c2 c3 c4
    · exact absurd c1.2 (by decide)
    · decide
    · exact absurd c3.2 (by decide)
    · decide
    · decide
  · unfold getPermissionForEndpoint
    split_ifs with c1 c2 c3 c4
    · exact absurd c1.1 (by simp [h1])
    · exact absurd c2.1 (by simp [h1])
    · exact absurd c3.1 (by simp [h2])
    · exact absurd c4.1 (by simp [h2])
    · decide

/-- C10: with the fixed permission set, every POST/PUT/PATCH request and
every request whose endpoint matches neither the `/users` nor the
`/groups` prefix is answered 403 Forbidden and `graphQuery` is never
invoked. -/
theorem handleGraphPost_denies_writes_and_unknown (w : World) (b : GraphOptions)
    (he : endpointMissing b = false)
    (h : (b.method = some (tl "POST") ∨ b.method = some (tl "PUT") ∨
          b.method = some (tl "PATCH")) ∨
      (List.isPrefixOf (tl "/users") (b.endpoint.getD []) = false ∧
       List.isPrefixOf (tl "/groups") (b.endpoint.getD []) = false)) :
    handleGraphPost w (some b) =
      (HandlerResp.forbidden (getPermissionForEndpoint (b.endpoint.getD []) b.method),
        false) ∧
    statusOf (handleGraphPost w (some b)).1 = 403 := by
  have hd := denied_permission (b.endpoint.getD []) b.method h
  have hmain : handleGraphPost w (some b) =
      (HandlerResp.forbidden (getPermissionForEndpoint (b.endpoint.getD []) b.method),
        false) := by
    unfold handleGraphPost
    simp [he, hd]
  exact ⟨hmain, by rw [hmain]; rfl⟩

/-- Witness for C10: `POST /users` is denied with 403 and no forward. -/
theorem handleGraphPost_denies_witness :
    handleGraphPost ⟨none, []⟩
      (some ⟨some (tl "/users"), some (tl "POST"), none, none, none, none, none⟩) =
      (HandlerResp.forbidden (tl "User.ReadWrite.All"), false) ∧
    statusOf (handleGraphPost ⟨none, []⟩
      (some ⟨some (tl "/users"), some (tl "POST"), none, none, none, none, none⟩)).1 = 403 :=
  handleGraphPost_denies_writes_and_unknown ⟨none, []⟩
    ⟨some (tl "/users"), some (tl "POST"), none, none, none, none, none⟩
    (by decide) (Or.inl (Or.inl rfl))

/-- C4: an invalid (uppercased) method or an invalid version makes
`graphQuery` fail with a validation error with an empty effect trace:
no token acquisition and no fetch is performed. -/
theorem graphQuery_validation_before_effects (w : World) (o : GraphOptions)
    (h : methodNorm o ∉ validMethods ∨ versionNorm o ∉ validVersions) :
    (∃ msg, (graphQuery w o).1 = Except.error (GraphError.validation msg)) ∧
    (graphQuery w o).2.1 = [] := by
  unfold graphQuery
  by_cases he : endpointMissing o = true
  · rw [if_pos he]
    exact ⟨⟨_, rfl⟩, rfl⟩
  · rw [if_neg he]
    by_cases hm : methodNorm o ∉ validMethods
    · rw [if_pos hm]
      exact ⟨⟨_, rfl⟩, rfl⟩
    · rcases h with h | h
      · exact absurd h hm
      · rw [if_neg hm, if_pos h]
        exact ⟨⟨_, rfl⟩, rfl⟩

/-- Witness for C4: method `DELETE` is rejected without any effect. -/
theorem graphQuery_validation_witness :
    (∃ msg, (graphQuery ⟨some (tl "tok"), []⟩
      ⟨some (tl "/users"), some (tl "DELETE"), none, none, none, none, none⟩).1 =
        Except.error (GraphError.validation msg)) ∧
    (graphQuery ⟨some (tl "tok"), []⟩
      ⟨some (tl "/users"), some (tl "DELETE"), none, none, none, none, none⟩).2.1 = [] :=
  graphQuery_validation_before_effects _ _ (Or.inl (by decide))

/-- C2 counterexample: a caller-supplied (empty) `queryParams` object is
mutated by the call — after `graphQuery` returns, it carries the
`consistencyLevel` key, so the descriptor is not identical to what it was
before the call. -/
theorem graphQuery_queryParams_mutation_cex :
    (graphQuery ⟨some (tl "tok"), [FetchResp.ok ⟨some [], none, []⟩]⟩
      ⟨some (tl "/users"), none, none, none, none, some [], none⟩).2.2.queryParams ≠
    (⟨some (tl "/users"), none, none, none, none, some [], none⟩ :
      GraphOptions).queryParams := by
  decide

/-- C2 amended: besides the pagination accumulator, the only local
mutation of `graphQuery` is on the caller's `queryParams` object, which
gains the `consistencyLevel=eventual` entry once execution passes token
acquisition; every other descriptor field is left unchanged. -/
theorem graphQuery_frame_only_queryParams (w : World) (o : GraphOptions) :
    ((graphQuery w o).2.2 = o ∨ (graphQuery w o).2.2 = afterCall o) ∧
    (afterCall o).endpoint = o.endpoint ∧ (afterCall o).method = o.method ∧
    (afterCall o).version = o.version ∧ (afterCall o).headers = o.headers ∧
    (afterCall o).body = o.body ∧ (afterCall o).allData = o.allData ∧
    ((afterCall o).queryParams = o.queryParams ∨
      ∃ qp, o.queryParams = some qp ∧
        (afterCall o).queryParams =
          some (setKey qp (tl "consistencyLevel") (tl "eventual"))) := by
  constructor
  · unfold graphQuery
    split
    · left; rfl
    split
    · left; rfl
    split
    · left; rfl
    split
    · left; rfl
    right
    dsimp only
    repeat' first
    | rfl
    | split
  · rcases hq : o.queryParams with _ | qp
    · unfold afterCall
      rw [hq]
      simp [hq]
    · unfold afterCall
      rw [hq]
      refine ⟨rfl, rfl, rfl, rfl, rfl, rfl, Or.inr ⟨qp, rfl, rfl⟩⟩

/-- The effect trace of a single `makeRequest` is exactly one fetch of the
given URL, whatever the network delivers. -/
lemma makeRequest_effects (rs : List FetchResp) (url : List Char) :
    (makeRequest rs url).2.2 = [Effect.fetch url] := by
  cases rs with
  | nil => rfl
  | cons r t => cases r <;> rfl

/-- `normSlash` always yields a leading slash and is the identity on
strings that already have one. -/
lemma normSlash_headIs (e : List Char) :
    headIs (normSlash e) '/' = true ∧ (headIs e '/' = true → normSlash e = e) := by
  unfold normSlash
  by_cases h : headIs e '/' = true
  · rw [if_pos h]
    exact ⟨h, fun _ => rfl⟩
  · rw [if_neg h]
    exact ⟨rfl, fun hh => absurd hh h⟩

/-- C8: on every valid descriptor that reaches the network, the first
dispatched URL is the base plus the slash-normalized endpoint (plus the
query string); the normalized endpoint always begins with `/` and equals
the caller's endpoint when that already begins with `/`. -/
theorem graphQuery_endpoint_slash_normalization (w : World) (o : GraphOptions)
    (tok : List Char) (he : endpointMissing o = false)
    (hm : methodNorm o ∈ validMethods) (hv : versionNorm o ∈ validVersions)
    (ht : w.token = some tok) :
    (∃ rest, (graphQuery w o).2.1 =
      Effect.acquireToken :: Effect.fetch (urlOf o) :: rest) ∧
    (∃ qs, urlOf o = graphBase (versionNorm o) ++ normSlash (o.endpoint.getD []) ++ qs) ∧
    headIs (normSlash (o.endpoint.getD [])) '/' = true ∧
    (headIs (o.endpoint.getD []) '/' = true →
      normSlash (o.endpoint.getD []) = o.endpoint.getD []) := by
  refine ⟨?_, ⟨_, rfl⟩, (normSlash_headIs _).1, (normSlash_headIs _).2⟩
  unfold graphQuery
  rw [if_neg (by simp [he]), if_neg (fun hn => hn hm), if_neg (fun hn => hn hv), ht]
  dsimp only
  have hef := makeRequest_effects w.responses (urlOf o)
  split
  · exact ⟨[], by rw [hef]⟩
  split
  · split
    · exact ⟨[], by rw [hef]⟩
    · split
      · exact ⟨_, by rw [hef]; rfl⟩
      · exact ⟨_, by rw [hef]; rfl⟩
  · exact ⟨[], by rw [hef]⟩

/-- Witness for C8: the endpoint `users` (no slash) is dispatched as
`/users`. -/
theorem graphQuery_slash_witness :
    (∃ rest, (graphQuery ⟨some (tl "tok"), []⟩
      ⟨some (tl "users"), none, none, none, none, none, none⟩).2.1 =
      Effect.acquireToken :: Effect.fetch (urlOf
        ⟨some (tl "users"), none, none, none, none, none, none⟩) :: rest) ∧
    (∃ qs, urlOf ⟨some (tl "users"), none, none, none, none, none, none⟩ =
      graphBase (versionNorm ⟨some (tl "users"), none, none, none, none, none, none⟩) ++
      normSlash (tl "users") ++ qs) ∧
    headIs (normSlash (tl "users")) '/' = true ∧
    (headIs (tl "users") '/' = true → normSlash (tl "users") = tl "users") :=
  graphQuery_endpoint_slash_normalization ⟨some (tl "tok"), []⟩
    ⟨some (tl "users"), none, none, none, none, none, none⟩ (tl "tok")
    (by decide) (by decide) (by decide) rfl

/-- A page of an `allData` response sequence. -/
def mkPage (items : List Json) (link : Option (List Char)) : FetchResp :=
  FetchResp.ok ⟨some items, link, []⟩

/-- A well-formed multi-page response sequence: every page but the last
carries the next-link cursor, the last page has none. -/
def mkPages : List (List Json) → List Char → List FetchResp
  | [], _ => []
  | [xs], _ => [mkPage xs none]
  | xs :: rest, link => mkPage xs (some link) :: mkPages rest link

lemma mkPages_length (l : List (List Json)) (link : List Char) :
    (mkPages l link).length = l.length := by
  induction l with
  | nil => rfl
  | cons x t ih =>
    cases t with
    | nil => rfl
    | cons y t2 =>
      have hstep : mkPages (x :: y :: t2) link =
          mkPage x (some link) :: mkPages (y :: t2) link := rfl
      rw [hstep, List.length_cons, ih]
      rfl

/-- The pagination loop over a well-formed page sequence accumulates every
page's items, in order. -/
lemma paginate_mkPages (link : List Char) (hl : link.isEmpty = false) :
    ∀ (ps : List (List Json)) (p acc : List Json) (f : Nat), ps.length < f →
    (paginate f (mkPages (p :: ps) link) acc link).1 =
      Except.ok ((acc ++ p) ++ ps.flatten) := by
  intro ps
  induction ps with
  | nil =>
    intro p acc f hf
    cases f with
    | zero => omega
    | succ f' => simp [mkPages, paginate, makeRequest, mkPage]
  | cons q qs ih =>
    intro p acc f hf
    cases f with
    | zero => simp at hf
    | succ f' =>
      have hstep : mkPages (p :: q :: qs) link =
          mkPage p (some link) :: mkPages (q :: qs) link := rfl
      rw [hstep]
      have hrec := ih q (acc ++ p) f' (by simp at hf ⊢; omega)
      simp [paginate, makeRequest, mkPage, hl, hrec]

/-- C3: over a well-formed multi-page sequence an `allData` call returns
the combined `paged` result — all pages' items concatenated in order, no
next-link field, and a count equal to the total item count, which is the
sum of the page sizes. -/
theorem graphQuery_pagination_collects_all_pages
    (pages : List (List Json)) (link tok : List Char) (o : GraphOptions)
    (hp : 2 ≤ pages.length) (hl : link ≠ [])
    (he : endpointMissing o = false) (hm : methodNorm o ∈ validMethods)
    (hv : versionNorm o ∈ validVersions) (ha : o.allData = some true) :
    (graphQuery ⟨some tok, mkPages pages link⟩ o).1 =
      Except.ok (GraphResult.paged pages.flatten pages.flatten.length) ∧
    pages.flatten.length = (pages.map List.length).sum := by
  have hl' : link.isEmpty = false := by
    cases link with
    | nil => exact absurd rfl hl
    | cons a b => rfl
  constructor
  · rcases pages with _ | ⟨p1, pages1⟩
    · simp at hp
    rcases pages1 with _ | ⟨p2, rest⟩
    · simp at hp
    unfold graphQuery
    rw [if_neg (by simp [he]), if_neg (fun hn => hn hm), if_neg (fun hn => hn hv)]
    dsimp only
    have hw : mkPages (p1 :: p2 :: rest) link =
        mkPage p1 (some link) :: mkPages (p2 :: rest) link := rfl
    rw [hw]
    have hrec := paginate_mkPages link hl' rest p2 p1
      ((mkPages (p2 :: rest) link).length + 1)
      (by rw [mkPages_length, List.length_cons]; omega)
    simp [makeRequest, mkPage, ha, hl', hrec]
  · simp [List.length_flatten]

/-- Witness for C3: a 3-item page plus a 2-item page combine to exactly
the 5 items in order. -/
theorem graphQuery_pagination_witness :
    (graphQuery ⟨some (tl "tok"),
      mkPages [[Json.num (tl "1"), Json.num (tl "2"), Json.num (tl "3")],
               [Json.num (tl "4"), Json.num (tl "5")]] (tl "next")⟩
      ⟨some (tl "/users"), none, none, none, none, none, some true⟩).1 =
      Except.ok (GraphResult.paged
        [Json.num (tl "1"), Json.num (tl "2"), Json.num (tl "3"),
         Json.num (tl "4"), Json.num (tl "5")] 5) :=
  (graphQuery_pagination_collects_all_pages
    [[Json.num (tl "1"), Json.num (tl "2"), Json.num (tl "3")],
     [Json.num (tl "4"), Json.num (tl "5")]] (tl "next") (tl "tok")
    ⟨some (tl "/users"), none, none, none, none, none, some true⟩
    (by decide) (by decide) (by decide) (by decide) (by decide) rfl).1

/-- A response sequence whose pages all advertise a further page. -/
def mkPagesLinked (pages : List (List Json)) (link : List Char) : List FetchResp :=
  pages.map (fun xs => mkPage xs (some link))

/-- If the pagination loop eventually receives a non-2xx response, the
whole loop fails with that upstream error, discarding everything
accumulated so far. -/
lemma paginate_hits_failure (link : List Char) (hl : link.isEmpty = false)
    (status : Nat) (payload : Option Json) (tail : List FetchResp) :
    ∀ (ps : List (List Json)) (acc : List Json) (f : Nat), ps.length < f →
    (paginate f (mkPagesLinked ps link ++ FetchResp.fail status payload :: tail)
        acc link).1 =
      Except.error (GraphError.upstream status payload) := by
  intro ps
  induction ps with
  | nil =>
    intro acc f hf
    cases f with
    | zero => omega
    | succ f' => simp [mkPagesLinked, paginate, makeRequest]
  | cons q qs ih =>
    intro acc f hf
    cases f with
    | zero => simp at hf
    | succ f' =>
      have hrec := ih (acc ++ q) f' (by simp at hf ⊢; omega)
      simp [mkPagesLinked, paginate, makeRequest, mkPage, hl] at hrec ⊢
      exact hrec

/-- C9: pagination is all-or-nothing — if the initial request or any
follow-up page fetch of an `allData` call returns a non-2xx status, the
whole call fails with the upstream error carrying that status and
payload, and no partial item collection is returned. -/
theorem graphQuery_pagination_all_or_nothing
    (pages : List (List Json)) (link tok : List Char) (o : GraphOptions)
    (status : Nat) (payload : Option Json) (tail : List FetchResp)
    (hl : link ≠ [])
    (he : endpointMissing o = false) (hm : methodNorm o ∈ validMethods)
    (hv : versionNorm o ∈ validVersions) (ha : o.allData = some true) :
    (graphQuery
      ⟨some tok, mkPagesLinked pages link ++ FetchResp.fail status payload :: tail⟩
      o).1 =
      Except.error (GraphError.upstream status payload) := by
  have hl' : link.isEmpty = false := by
    cases link with
    | nil => exact absurd rfl hl
    | cons a b => rfl
  unfold graphQuery
  rw [if_neg (by simp [he]), if_neg (fun hn => hn hm), if_neg (fun hn => hn hv)]
  dsimp only
  rcases pages with _ | ⟨p1, rest⟩
  · simp [mkPagesLinked, makeRequest]
  · have hstep : mkPagesLinked (p1 :: rest) link =
        mkPage p1 (some link) :: mkPagesLinked rest link := rfl
    rw [hstep]
    have hrec := paginate_hits_failure link hl' status payload tail rest p1
      ((mkPagesLinked rest link).length + (tail.length + 1) + 1)
      (by simp [mkPagesLinked]; omega)
    simp [makeRequest, mkPage, ha, hl', hrec]

/-- Witness for C9: a good first page followed by a 503 page fails the
whole call with the upstream 503 error. -/
theorem graphQuery_all_or_nothing_witness :
    (graphQuery ⟨some (tl "tok"),
      mkPagesLinked [[Json.null]] (tl "next") ++ [FetchResp.fail 503 none]⟩
      ⟨some (tl "/users"), none, none, none, none, none, some true⟩).1 =
      Except.error (GraphError.upstream 503 none) :=
  graphQuery_pagination_all_or_nothing [[Json.null]] (tl "next") (tl "tok")
    ⟨some (tl "/users"), none, none, none, none, none, some true⟩ 503 none []
    (by decide) (by decide) (by decide) (by decide) rfl

end GraphMCP
